import Mathlib

/-!
Verification development for the `signale` console logger
(source: `src/signale.js`).

The embedding models:
* the insertion-ordered timer map (`Map` in JS) as an association list;
* JS values stored in the mutable timer-style records as an inductive
  `JVal` (strings, arrays of strings, nested objects, booleans), with JS
  truthiness;
* terminal styling (the external `chalk` collaborator) as an opaque
  `Styler` record of string-transforming functions;
* fallible JS code paths (thrown `TypeError`s) as `Except`;
* `Date.now()` as explicit integer clock arguments passed to each
  operation.

Numbers that JS would treat as IEEE doubles occur only in
`executionTime`, where `(span / 1000).toFixed(2)` is modelled as exact
rational rounding (round half away from zero on the exact value of
`span / 1000`); this agrees with the double computation except at
representation boundary ties.
-/

namespace Signale

/-! ### Insertion-ordered maps (JS `Map` and plain-object semantics)

JS `Map.set` updates an existing key in place (keeping its position) or
appends; `Map.delete` removes the entry; iteration order is insertion
order.  Plain-object property assignment behaves the same way for string
keys, so one association-list model serves both. -/

def mapGet {β : Type} : List (String × β) → String → Option β
  | [], _ => none
  | (k', v) :: rest, k => if k' = k then some v else mapGet rest k

def mapSet {β : Type} : List (String × β) → String → β → List (String × β)
  | [], k, v => [(k, v)]
  | (k', v') :: rest, k, v =>
      if k' = k then (k, v) :: rest else (k', v') :: mapSet rest k v

def mapDelete {β : Type} : List (String × β) → String → List (String × β)
  | [], _ => []
  | (k', v') :: rest, k =>
      if k' = k then rest else (k', v') :: mapDelete rest k

/-! ### JS values and truthiness -/

inductive JVal where
  | vstr : String → JVal
  | varr : List String → JVal
  | vobj : List (String × JVal) → JVal
  | vbool : Bool → JVal

/-- JS truthiness for the values of `JVal`: the empty string and `false`
are falsy; arrays and objects are always truthy. -/
def truthy : JVal → Bool
  | .vstr s => s ≠ ""
  | .varr _ => true
  | .vobj _ => true
  | .vbool b => b

/-- A JS object holding style overrides (or a configuration): an
insertion-ordered string-keyed record. -/
def StyleRec : Type := List (String × JVal)

/-- JS `Object.assign(target, source)`: every own key of `source` is written
onto `target`, in iteration order. -/
def jsAssign (target source : StyleRec) : StyleRec :=
  source.foldl (fun acc kv => mapSet acc kv.1 kv.2) target

/-- Entries seen by `Object.keys`/indexing when a value is used as an
object: objects give their own entries, arrays give index/element pairs,
strings give index/character pairs, booleans have no own keys. -/
def entriesOf : JVal → List (String × JVal)
  | .vobj l => l
  | .varr xs => (xs.enum).map (fun p => (toString p.1, JVal.vstr p.2))
  | .vstr s => (s.data.enum).map (fun p => (toString p.1, JVal.vstr (String.singleton p.2)))
  | .vbool _ => []

/-! ### String helpers (kernel-reducible replacements for JS string ops) -/

/-- JS `Array.prototype.join(sep)`. -/
def joinSep (sep : String) : List String → String
  | [] => ""
  | [x] => x
  | x :: xs => x ++ sep ++ joinSep sep xs

/-- JS `String.prototype.padEnd(n)` (pad with spaces on the right). -/
def padEnd (s : String) (n : Nat) : String :=
  s ++ String.mk (List.replicate (n - s.length) ' ')

/-- Replace the first `','` of `s` by `rep`
(JS `s.replace(',', rep)` for this fixed pattern). -/
def replaceFirstComma (s : String) (rep : String) : String :=
  String.mk (go s.data rep)
where
  go : List Char → String → List Char
    | [], _ => []
    | c :: cs, r => if c = ',' then r.data ++ cs else c :: go cs r

/-- Whether `needle` occurs as a contiguous run at the head of `hay`. -/
def listIsPrefix : List Char → List Char → Bool
  | [], _ => true
  | _ :: _, [] => false
  | n :: ns, h :: hs => n = h && listIsPrefix ns hs

/-- Whether `needle` occurs as a contiguous run anywhere in `hay`
(JS `String.prototype.includes`). -/
def listContainsSub (needle : List Char) : List Char → Bool
  | [] => listIsPrefix needle []
  | h :: hs => listIsPrefix needle (h :: hs) || listContainsSub needle hs

/-- JS `label.includes('timer_')` from `timeEnd`. -/
def containsTimer (x : String) : Bool :=
  listContainsSub "timer_".data x.data

/-- ASCII uppercase of one character (JS `toUpperCase` restricted to the
ASCII labels that occur). -/
def upChar (c : Char) : Char :=
  if 'a' ≤ c ∧ c ≤ 'z' then Char.ofNat (c.toNat - 32) else c

/-- JS `String.prototype.toUpperCase` (ASCII model). -/
def upStr (s : String) : String :=
  String.mk (s.data.map upChar)

/-- JS `String.prototype.trim`. -/
def trimStr (s : String) : String :=
  String.mk (((s.data.dropWhile Char.isWhitespace).reverse.dropWhile Char.isWhitespace).reverse)

/-- Split on newline characters (JS `stack.split('\n')`). -/
def splitLines (s : String) : List String :=
  go s.data [] |>.map String.mk
where
  go : List Char → List Char → List (List Char)
    | [], acc => [acc.reverse]
    | c :: cs, acc => if c = '\n' then acc.reverse :: go cs [] else go cs (c :: acc)

/-! ### Elapsed-time formatting (`timeEnd`, line 296)

`span < 1000 ? span + 'ms' : (span / 1000).toFixed(2) + 's'`.
`toFixed(2)` is modelled exactly on the rational `span / 1000`:
round to the nearest hundredth, half away from zero (for the
non-negative spans that reach this branch, `(span + 5) / 10`
centiseconds). -/

/-- Exactly two decimal digits of `d` (`d < 100`), as printed after the
decimal point by `toFixed(2)`. -/
def twoDigits (d : Nat) : String :=
  String.mk [Nat.digitChar (d / 10 % 10), Nat.digitChar (d % 10)]

/-- The `executionTime` string built by `timeEnd` (line 296). -/
def executionTime (span : Int) : String :=
  if span < 1000 then toString span ++ "ms"
  else
    let c : Nat := (span + 5).toNat / 10
    toString (c / 100) ++ "." ++ twoDigits (c % 100) ++ "s"

/-! ### Styling, registry, environment -/

/-- One terminal style as applied by `chalk[name]`: `apply` is
`chalk[name](text)` and `applyU` is `chalk[name].underline(text)`. -/
structure Style where
  apply : String → String
  applyU : String → String

/-- The external styling collaborator (`chalk`).  `lookup` models
`chalk[name]` — `none` when `name` is not a style (JS `undefined`,
so calling it throws).  `underline`/`greyS` and the colour defaults
`greenS`/`redS`/`yellowS` are the fixed styles the source names
directly. -/
structure Styler where
  lookup : String → Option Style
  underline : String → String
  greyS : Style
  greenS : Style
  redS : Style
  yellowS : Style

/-- A registered logger type (an entry of `types.js` or a custom type):
display metadata `{badge, label, color}`. -/
structure TypeDesc where
  badge : Option String
  label : Option String
  color : String

/-- Logger scope: a single string or an ordered list of strings
(`options.scope || ''`). -/
inductive ScopeName where
  | str : String → ScopeName
  | arr : List String → ScopeName

/-- JS `.length` of the scope value (string length or array length),
as read by `_meta` (line 124). -/
def scopeLen : ScopeName → Nat
  | .str s => s.length
  | .arr l => l.length

/-- Environment accessors read while composing a line: the raw date and
time strings, the caller-file basename, and the instance scope. -/
structure Env where
  date : String
  timestamp : String
  filename : String
  scope : ScopeName

/-- The glyph `figures.pointerSmall`, the fixed separator glyph appended after the
meta tokens. -/
def pointerSmall : String := "›"

/-- Immutable per-instance data: styling, configuration, environment,
the merged type registry (`Object.assign({}, types, customTypes)`),
the precomputed longest label length, and the built-in `start`/`pause`
badges referenced by the timer methods (`this._types.start.badge`,
`this._types.pause.badge`; `types.js` is outside `src/`). -/
structure Ctx where
  sty : Styler
  cfg : StyleRec
  env : Env
  types : List (String × TypeDesc)
  longestLabel : Nat
  startBadge : String
  pauseBadge : String

/-- Reading a boolean option off the configuration object
(missing keys are falsy). -/
def cfgFlag (cfg : StyleRec) (k : String) : Bool :=
  match mapGet cfg k with
  | some v => truthy v
  | none => false

/-- The method `_formatScopeName` (lines 101–107). -/
def formatScope : ScopeName → String
  | .arr l =>
      joinSep " " (((l.filter (fun x => x.length ≠ 0)).map (fun x => "[" ++ trimStr x ++ "]")))
  | .str s => "[" ++ s ++ "]"

/-- The method `_meta` (lines 113–132): the bracketed grey prefix tokens in fixed
order — date, timestamp, filename, scope — with the pointer glyph
appended when any token is present, all painted grey. -/
def metaTokens (ctx : Ctx) : List String :=
  let m : List String :=
    (if cfgFlag ctx.cfg "displayDate" then ["[" ++ ctx.env.date ++ "]"] else []) ++
    (if cfgFlag ctx.cfg "displayTimestamp" then ["[" ++ ctx.env.timestamp ++ "]"] else []) ++
    (if cfgFlag ctx.cfg "displayFilename" then ["[" ++ ctx.env.filename ++ "]"] else []) ++
    (if scopeLen ctx.env.scope ≠ 0 ∧ cfgFlag ctx.cfg "displayScope" then
      [formatScope ctx.env.scope] else [])
  if m = [] then []
  else (m ++ [pointerSmall]).map ctx.sty.greyS.apply

/-! ### Message composition (`_buildSignale`, lines 134–198) -/

/-- One raw caller argument: a plain string, an `Error` value (carried
by its stack text), or a structured `{message, prefix?, suffix?}`
object whose `message` may itself be a string or an `Error`. -/
inductive LogArg where
  | text : String → LogArg
  | err : String → LogArg
  | obj : Option LogArg → Option String → Option String → LogArg

/-- JS string coercion of a single argument inside `args.join(' ')`:
`String(error)` is the first stack line, objects print as
`[object Object]`. -/
def coerceArg : LogArg → String
  | .text s => s
  | .err stack => (splitLines stack).headD ""
  | .obj _ _ _ => "[object Object]"

/-- The classified message payload. -/
inductive MsgPayload where
  | text : String → MsgPayload
  | err : String → MsgPayload

/-- Argument classification (lines 135–147): a single non-`Error`
object is destructured as `{prefix, message, suffix}` (a missing
`message` coerces to the string `"undefined"`); otherwise all
arguments are joined with single spaces. -/
def classify (args : List LogArg) : MsgPayload × Option String × Option String :=
  match args with
  | [LogArg.err stack] => (.err stack, none, none)
  | [LogArg.obj m p s] =>
      (match m with
        | some (LogArg.text t) => .text t
        | some (LogArg.err stack) => .err stack
        | some (LogArg.obj _ _ _) => .text "[object Object]"
        | none => .text "undefined", p, s)
  | _ => (.text (joinSep " " (args.map coerceArg)), none, none)

/-- Resolution `chalk[type.color]` — failing (so that the subsequent call throws a
`TypeError`) when the colour is not a style name. -/
def colorOf (sty : Styler) (d : TypeDesc) : Except Unit Style :=
  match sty.lookup d.color with
  | some s => Except.ok s
  | none => Except.error ()

/-- Meta, prefix, badge and label tokens of `_buildSignale`
(lines 149–170), in order.  The badge is colour-styled and padded one
past its own length; the label is optionally upper-cased and either
underlined-and-padded to `longestLabel + 20` or padded to
`longestLabel + 1` inside the colour style. -/
def buildPre (ctx : Ctx) (d : TypeDesc) (pre : Option String) : Except Unit (List String) :=
  let s1 := metaTokens ctx ++
    (match pre with
      | some p =>
          if p ≠ "" then
            [if cfgFlag ctx.cfg "underlinePrefix" then ctx.sty.underline p else p]
          else []
      | none => [])
  let badgeStep : Except Unit (List String) :=
    if cfgFlag ctx.cfg "displayBadge" then
      match d.badge with
      | some b =>
          if b ≠ "" then
            match colorOf ctx.sty d with
            | Except.error e => Except.error e
            | Except.ok stc => Except.ok (s1 ++ [stc.apply (padEnd b (b.length + 1))])
          else Except.ok s1
      | none => Except.ok s1
    else Except.ok s1
  match badgeStep with
  | Except.error e => Except.error e
  | Except.ok s2 =>
    if cfgFlag ctx.cfg "displayLabel" then
      match d.label with
      | some l =>
          if l ≠ "" then
            match colorOf ctx.sty d with
            | Except.error e => Except.error e
            | Except.ok stc =>
                let lab := if cfgFlag ctx.cfg "uppercaseLabel" then upStr l else l
                Except.ok (s2 ++
                  [if cfgFlag ctx.cfg "underlineLabel" then
                    padEnd (stc.applyU lab) (ctx.longestLabel + 20)
                  else stc.apply (padEnd lab (ctx.longestLabel + 1))])
          else Except.ok s2
      | none => Except.ok s2
    else Except.ok s2

/-- The method `_buildSignale` (lines 134–198): the fully formatted line (no
trailing newline).  Errors render their first stack line followed by
the grey newline-prefixed remainder and skip the suffix stage. -/
def buildSignale (ctx : Ctx) (d : TypeDesc) (args : List LogArg) : Except Unit String :=
  let (msg, pre, suf) := classify args
  match buildPre ctx d pre with
  | Except.error e => Except.error e
  | Except.ok sig =>
    match msg with
    | .err stack =>
        let parts := splitLines stack
        let nm := parts.headD ""
        let rest := parts.tail
        let t1 := if cfgFlag ctx.cfg "underlineMessage" then ctx.sty.underline nm else nm
        let t2 := ctx.sty.greyS.apply (joinSep "" (rest.map (fun l => "\n" ++ l)))
        Except.ok (joinSep " " (sig ++ [t1, t2]))
    | .text m =>
        let t := if cfgFlag ctx.cfg "underlineMessage" then ctx.sty.underline m else m
        let sig2 := (sig ++ [t]) ++
          (match suf with
            | some s =>
                if s ≠ "" then
                  [if cfgFlag ctx.cfg "underlineSuffix" then ctx.sty.underline s else s]
                else []
            | none => [])
        Except.ok (joinSep " " sig2)

/-- Dispatch failure taxonomy: asking for an unregistered type name
(the constructor binds a logging method only for registered types, so
the call itself fails), or a `TypeError` thrown while rendering. -/
inductive SigErr where
  | unknownType : SigErr
  | typeError : SigErr

/-- One logging call through the facade: the per-type bound method
(constructor lines 32–34 binding `_logger`, lines 85–91) looks up the
registered type, renders the line and appends it plus `'\n'` to the
sink.  An unregistered name has no bound method: the call fails and
nothing is written. -/
def callLogger (ctx : Ctx) (out : List String) (name : String) (args : List LogArg) :
    Except SigErr (List String) :=
  match mapGet ctx.types name with
  | none => Except.error SigErr.unknownType
  | some d =>
    match buildSignale ctx d args with
    | Except.error _ => Except.error SigErr.typeError
    | Except.ok line => Except.ok (out ++ [line ++ "\n"])

/-! ### Configuration replacement (`configuration` setter, lines 81–83;
`config`, lines 200–202) -/

/-- The method `.config(configObj)`: the new configuration is
`Object.assign(this.packageConfiguration, configObj)` — a fresh merge
over the package-level configuration, ignoring `prior`, the instance's
previous configuration. -/
def configOp (pcfg prior newObj : StyleRec) : StyleRec :=
  jsAssign pcfg newObj

/-! ### Timer engine (`time`, lines 234–280; `timeEnd`, lines 282–315) -/

/-- The mutable per-instance timer state: the insertion-ordered timer
map (`this._timers`), the timer style-override records
(`this.__timers.start` / `this.__timers.end`), and the lines written to
the output sink so far. -/
structure SState where
  timers : List (String × Int)
  tstart : StyleRec
  tend : StyleRec
  out : List String

/-- A fresh instance's timer state (`this._timers = new Map()`,
`this.__timers = {start: {}, end: {}}`). -/
def initState : SState :=
  { timers := [], tstart := [], tend := [], out := [] }

/-- The auto-generated label `` `timer_${this._timers.size}` ``
(line 236). -/
def autoLabel (st : SState) : String :=
  "timer_" ++ toString st.timers.length

/-- The result record `{label, span}` returned by `timeEnd`. -/
structure TimerResult where
  label : String
  span : Int

/-- Wholesale replacement `this.__timers.start = options.start` (and
likewise for `end`, lines 246–252): absent or falsy values leave the
record alone; a truthy object (or array) becomes the record; a truthy
primitive makes the subsequent per-key strict-mode property write throw
a `TypeError` (the `options` object always has at least that key). -/
def wholesale (cur : StyleRec) : Option JVal → Except Unit StyleRec
  | none => Except.ok cur
  | some v =>
      if truthy v then
        match v with
        | .vobj l => Except.ok l
        | .varr xs => Except.ok (entriesOf (.varr xs))
        | _ => Except.error ()
      else Except.ok cur

/-- The overlay `forEach(key => ... )` writing each entry of `src`
over the entries of `src`, applied to both records (lines 240–244 and
254–257). -/
def foldBoth (src : List (String × JVal)) (a b : StyleRec) : StyleRec × StyleRec :=
  src.foldl (fun p kv => (mapSet p.1 kv.1 kv.2, mapSet p.2 kv.1 kv.2)) (a, b)

/-- The option-layering of `time` (lines 239–259): a truthy
`options.both` writes each of its keys to both records; otherwise
`options.start`/`options.end` wholesale-replace first and then every
key of `options` (including `start`/`end` themselves) is written to
both records. -/
def applyTimerOptions (opts : StyleRec) (ts te : StyleRec) :
    Except Unit (StyleRec × StyleRec) :=
  let elseBranch : Except Unit (StyleRec × StyleRec) :=
    match wholesale ts (mapGet opts "start") with
    | Except.error e => Except.error e
    | Except.ok ts1 =>
      match wholesale te (mapGet opts "end") with
      | Except.error e => Except.error e
      | Except.ok te1 => Except.ok (foldBoth opts ts1 te1)
  match mapGet opts "both" with
  | some b => if truthy b then Except.ok (foldBoth (entriesOf b) ts te) else elseBranch
  | none => elseBranch

/-- The badge `timerStart.badge || default` followed by `.padEnd` (lines 267,
271): a truthy non-string badge has no `padEnd` and throws. -/
def getBadge (r : StyleRec) (dflt : String) : Except Unit String :=
  match mapGet r "badge" with
  | none => Except.ok dflt
  | some (.vstr s) => Except.ok (if s = "" then dflt else s)
  | some (.vbool false) => Except.ok dflt
  | some (.vbool true) => Except.error ()
  | some (.varr _) => Except.error ()
  | some (.vobj _) => Except.error ()

/-- Resolution `chalk[rec[field]] || dflt` (lines 266, 299, 301): a defined string
naming a real style wins, anything else falls back. -/
def colorResolve (sty : Styler) (r : StyleRec) (field : String) (dflt : Style) : Style :=
  match mapGet r field with
  | some (.vstr c) => (sty.lookup c).getD dflt
  | _ => dflt

/-- The `__text` value for the start report (line 268): arrays are joined with
spaces (`textType === 'object'`), plain objects throw on `.join`,
falsy values fall back to `'Initialized timer...'`, a bare `true`
is kept (and coerced to `"true"` when the report line is joined). -/
def getStartText (r : StyleRec) : Except Unit String :=
  match mapGet r "text" with
  | some (.varr xs) => Except.ok (joinSep " " xs)
  | some (.vobj _) => Except.error ()
  | some (.vstr s) => Except.ok (if s = "" then "Initialized timer..." else s)
  | some (.vbool b) => Except.ok (if b then "true" else "Initialized timer...")
  | none => Except.ok "Initialized timer..."

/-- The `__text` value for the end report (line 302): arrays are joined with
commas and the first comma is replaced by the styled elapsed time
flanked by spaces; falsy values fall back to
`` `Timer run for: ${styledTime}` ``. -/
def getEndText (r : StyleRec) (execStyled : String) : Except Unit String :=
  match mapGet r "text" with
  | some (.varr xs) =>
      Except.ok (replaceFirstComma (joinSep "," xs) (" " ++ execStyled ++ " "))
  | some (.vobj _) => Except.error ()
  | some (.vstr s) => Except.ok (if s = "" then "Timer run for: " ++ execStyled else s)
  | some (.vbool b) => Except.ok (if b then "true" else "Timer run for: " ++ execStyled)
  | none => Except.ok ("Timer run for: " ++ execStyled)

/-- Well-formedness of a style record for rendering a report line:
its `badge` survives `.padEnd` and its `text` survives the
`textType`-directed join — exactly the conditions under which `time` /
`timeEnd` do not throw. -/
def recOk (r : StyleRec) : Bool :=
  (match mapGet r "badge" with
    | some (.vbool true) => false
    | some (.varr _) => false
    | some (.vobj _) => false
    | _ => true) &&
  (match mapGet r "text" with
    | some (.vobj _) => false
    | _ => true)

/-- Label resolution of `time` (lines 235–237): a falsy label (absent
or the empty string) synthesizes the auto-label. -/
def resolvedLabel (st : SState) (label : Option String) : String :=
  match label with
  | some l => if l = "" then autoLabel st else l
  | none => autoLabel st

/-- The method `time(label, options)` (lines 234–280): resolve the label (a falsy
label — absent or empty — synthesizes `autoLabel`), layer the options
onto the style records, record `{label ↦ now}` (restart semantics), and
emit the start-report line.  Returns the effective label. -/
def timeOp (ctx : Ctx) (st : SState) (label : Option String) (options : Option StyleRec)
    (now : Int) : Except Unit (String × SState) :=
  let lab : String := resolvedLabel st label
  match (match options with
         | none => Except.ok (st.tstart, st.tend)
         | some o => applyTimerOptions o st.tstart st.tend) with
  | Except.error e => Except.error e
  | Except.ok p =>
    let c := colorResolve ctx.sty p.1 "color" ctx.sty.greenS
    match getBadge p.1 ctx.startBadge with
    | Except.error e => Except.error e
    | Except.ok badge =>
      match getStartText p.1 with
      | Except.error e => Except.error e
      | Except.ok text =>
        let line := joinSep " " (metaTokens ctx ++
          [c.apply (padEnd badge 4),
           padEnd (c.applyU lab) (ctx.longestLabel + 22),
           text])
        Except.ok (lab,
          { timers := mapSet st.timers lab now,
            tstart := p.1, tend := p.2,
            out := st.out ++ [line ++ "\n"] })

/-- The callback of the label-selecting `reduceRight` in `timeEnd`
(lines 284–287): `(x, y) => is(x) ? x : (is(y) ? y : null)`, where a
`null` accumulator makes `is(x)` throw a `TypeError`. -/
def reduceStep (x : Option String) (y : String) : Except Unit (Option String) :=
  match x with
  | none => Except.error ()
  | some s =>
      Except.ok (if containsTimer s then some s
                 else if containsTimer y then some y else none)

/-- The selection `[...keys].reduceRight(...)` with no initial value:
the accumulator starts at the last key and the callback runs over the
remaining keys from right to left (a single key is returned without
running the callback at all). -/
def autoSelect (keys : List String) : Except Unit (Option String) :=
  match keys.reverse with
  | [] => Except.ok none
  | last :: rest => rest.foldlM reduceStep (some last)

/-- The body of `timeEnd` once a (non-`null`) label is resolved
(lines 290–314): an untracked label is a no-op; otherwise compute the
span, remove the record, emit the end-report line, and return
`{label, span}`. -/
def endWith (ctx : Ctx) (st : SState) (l : String) (now : Int) :
    Except Unit (Option TimerResult × SState) :=
  match mapGet st.timers l with
  | none => Except.ok (none, st)
  | some started =>
    let span := now - started
    let execT := executionTime span
    let c := colorResolve ctx.sty st.tend "color" ctx.sty.redS
    let execC := colorResolve ctx.sty st.tend "time" ctx.sty.yellowS
    match getBadge st.tend ctx.pauseBadge with
    | Except.error e => Except.error e
    | Except.ok badge =>
      match getEndText st.tend (execC.apply execT) with
      | Except.error e => Except.error e
      | Except.ok text =>
        let line := joinSep " " (metaTokens ctx ++
          [c.apply (padEnd badge 4),
           padEnd (c.applyU l) (ctx.longestLabel + 22),
           text])
        Except.ok (some ⟨l, span⟩,
          { st with timers := mapDelete st.timers l,
                    out := st.out ++ [line ++ "\n"] })

/-- The method `timeEnd(label)` (lines 282–315): a falsy label with a non-empty
timer map is auto-selected by `autoSelect` (which may throw); an
untracked (or `null`) resolved label is a no-op returning `undefined`;
otherwise the timer is ended by `endWith`. -/
def timeEndOp (ctx : Ctx) (st : SState) (label : Option String) (now : Int) :
    Except Unit (Option TimerResult × SState) :=
  let labE : Except Unit (Option String) :=
    match label with
    | some l =>
        if l = "" then
          (if st.timers.length ≠ 0 then autoSelect (st.timers.map Prod.fst)
           else Except.ok (some l))
        else Except.ok (some l)
    | none =>
        if st.timers.length ≠ 0 then autoSelect (st.timers.map Prod.fst)
        else Except.ok none
  match labE with
  | Except.error e => Except.error e
  | Except.ok none => Except.ok (none, st)
  | Except.ok (some l) => endWith ctx st l now

/-! ### Concrete instances used by witnesses and counterexamples -/

/-- A pass-through style (the spec allows a no-op styling capability). -/
def plainStyle : Style :=
  { apply := fun s => s, applyU := fun s => s }

/-- A pass-through styler resolving every colour name. -/
def exSty : Styler :=
  { lookup := fun _ => some plainStyle, underline := fun s => s,
    greyS := plainStyle, greenS := plainStyle, redS := plainStyle,
    yellowS := plainStyle }

/-- A concrete environment. -/
def exEnv : Env :=
  { date := "2024-01-01", timestamp := "00:00:00", filename := "app.js",
    scope := ScopeName.str "" }

/-- A concrete registry with one registered type. -/
def exTypes : List (String × TypeDesc) :=
  [("info", { badge := some "i", label := some "info", color := "blue" })]

/-- A concrete instance context (empty configuration: every display
flag falsy). -/
def exCtx : Ctx :=
  { sty := exSty, cfg := [], env := exEnv, types := exTypes,
    longestLabel := 5, startBadge := "S", pauseBadge := "P" }

/-- A state tracking one custom-labelled timer. -/
def stFoo : SState :=
  { timers := [("foo", 0)], tstart := [], tend := [], out := [] }

/-- A state tracking one auto-labelled timer. -/
def stT0 : SState :=
  { timers := [("timer_0", 5)], tstart := [], tend := [], out := [] }

/-- A state whose single tracked timer is `timer_1`, reachable by
`time(); time(); timeEnd('timer_0')` — the next auto-label collides. -/
def stT1 : SState :=
  { timers := [("timer_1", 5)], tstart := [], tend := [], out := [] }

/-- A state tracking two custom-labelled timers. -/
def stAB : SState :=
  { timers := [("a", 1), ("b", 2)], tstart := [], tend := [], out := [] }

/-- A state tracking three custom-labelled timers. -/
def stABC : SState :=
  { timers := [("a", 1), ("b", 2), ("c", 3)], tstart := [], tend := [], out := [] }

/-! ### Lemmas about the map model -/

lemma mapGet_mapSet_self {β : Type} (m : List (String × β)) (k : String) (v : β) :
    mapGet (mapSet m k v) k = some v := by
  induction m with
  | nil => simp [mapSet, mapGet]
  | cons kv rest ih =>
      obtain ⟨k', v'⟩ := kv
      by_cases h : k' = k
      · simp [mapSet, mapGet, h]
      · simp [mapSet, mapGet, h, ih]

lemma mapGet_mapSet_ne {β : Type} (m : List (String × β)) (k k' : String) (v : β)
    (h : k' ≠ k) : mapGet (mapSet m k v) k' = mapGet m k' := by
  induction m with
  | nil => simp [mapSet, mapGet, if_neg (Ne.symm h)]
  | cons kv rest ih =>
      obtain ⟨k0, v0⟩ := kv
      by_cases h0 : k0 = k
      · subst h0
        simp [mapSet, mapGet, if_neg (Ne.symm h)]
      · simp only [mapSet, if_neg h0]
        by_cases h1 : k0 = k'
        · simp [mapGet, if_pos h1]
        · simp [mapGet, if_neg h1, ih]

lemma mapGet_mapDelete_ne {β : Type} (m : List (String × β)) (k k' : String)
    (h : k' ≠ k) : mapGet (mapDelete m k) k' = mapGet m k' := by
  induction m with
  | nil => simp [mapDelete]
  | cons kv rest ih =>
      obtain ⟨k0, v0⟩ := kv
      by_cases h0 : k0 = k
      · subst h0
        simp [mapDelete, mapGet, if_neg (Ne.symm h)]
      · simp only [mapDelete, if_neg h0]
        by_cases h1 : k0 = k'
        · simp [mapGet, if_pos h1]
        · simp [mapGet, if_neg h1, ih]

lemma mapGet_eq_none_of_not_mem {β : Type} (m : List (String × β)) (k : String)
    (h : k ∉ m.map Prod.fst) : mapGet m k = none := by
  induction m with
  | nil => simp [mapGet]
  | cons kv rest ih =>
      obtain ⟨k0, v0⟩ := kv
      simp only [List.map_cons, List.mem_cons] at h
      push_neg at h
      simp [mapGet, if_neg (Ne.symm h.1), ih h.2]

lemma keys_mapSet {β : Type} (m : List (String × β)) (k : String) (v : β) :
    (mapSet m k v).map Prod.fst =
      if k ∈ m.map Prod.fst then m.map Prod.fst else m.map Prod.fst ++ [k] := by
  induction m with
  | nil => simp [mapSet]
  | cons kv rest ih =>
      obtain ⟨k0, v0⟩ := kv
      by_cases h0 : k0 = k
      · subst h0
        simp [mapSet]
      · simp only [mapSet, if_neg h0, List.map_cons, ih, List.mem_cons]
        by_cases h1 : k ∈ rest.map Prod.fst
        · simp [h1, if_neg (Ne.symm h0)]
        · simp [h1, if_neg (Ne.symm h0)]

lemma nodup_keys_mapSet {β : Type} (m : List (String × β)) (k : String) (v : β)
    (h : (m.map Prod.fst).Nodup) : ((mapSet m k v).map Prod.fst).Nodup := by
  rw [keys_mapSet]
  by_cases h1 : k ∈ m.map Prod.fst
  · simp only [if_pos h1]
    exact h
  · simp only [if_neg h1]
    rw [List.nodup_append]
    refine ⟨h, List.nodup_singleton k, ?_⟩
    intro a ha hak
    simp only [List.mem_singleton] at hak
    exact h1 (hak ▸ ha)

lemma mapGet_mapDelete_self {β : Type} (m : List (String × β)) (k : String)
    (h : (m.map Prod.fst).Nodup) : mapGet (mapDelete m k) k = none := by
  induction m with
  | nil => simp [mapDelete, mapGet]
  | cons kv rest ih =>
      obtain ⟨k0, v0⟩ := kv
      simp only [List.map_cons, List.nodup_cons] at h
      by_cases h0 : k0 = k
      · subst h0
        simpa [mapDelete] using mapGet_eq_none_of_not_mem rest k0 h.1
      · simp [mapDelete, mapGet, h0, ih h.2]

lemma mapGet_append_of_not_mem {β : Type} (m l : List (String × β)) (k : String)
    (h : k ∉ m.map Prod.fst) : mapGet (m ++ l) k = mapGet l k := by
  induction m with
  | nil => simp
  | cons kv rest ih =>
      obtain ⟨k0, v0⟩ := kv
      simp only [List.map_cons, List.mem_cons] at h
      push_neg at h
      simp [mapGet, if_neg (Ne.symm h.1), ih h.2]

lemma mapDelete_append_of_not_mem {β : Type} (m l : List (String × β)) (k : String)
    (h : k ∉ m.map Prod.fst) : mapDelete (m ++ l) k = m ++ mapDelete l k := by
  induction m with
  | nil => simp
  | cons kv rest ih =>
      obtain ⟨k0, v0⟩ := kv
      simp only [List.map_cons, List.mem_cons] at h
      push_neg at h
      simp [mapDelete, if_neg (Ne.symm h.1), ih h.2]

/-! ### Lemmas about option layering and configuration merge -/

lemma foldBoth_get_of_not_mem (src : List (String × JVal)) (a b : StyleRec) (k : String)
    (h : mapGet src k = none) :
    mapGet (foldBoth src a b).1 k = mapGet a k ∧
    mapGet (foldBoth src a b).2 k = mapGet b k := by
  induction src generalizing a b with
  | nil => simp [foldBoth]
  | cons kv rest ih =>
      obtain ⟨k0, v0⟩ := kv
      simp only [mapGet] at h
      by_cases h0 : k0 = k
      · simp [h0] at h
      · simp only [if_neg h0] at h
        have := ih (mapSet a k0 v0) (mapSet b k0 v0) h
        simp only [foldBoth, List.foldl_cons] at this ⊢
        exact ⟨this.1.trans (mapGet_mapSet_ne a k0 k v0 (Ne.symm h0)),
               this.2.trans (mapGet_mapSet_ne b k0 k v0 (Ne.symm h0))⟩

lemma foldBoth_get_of_mem (src : List (String × JVal)) (a b : StyleRec) (k : String)
    (v : JVal) (hn : (src.map Prod.fst).Nodup) (h : mapGet src k = some v) :
    mapGet (foldBoth src a b).1 k = some v ∧
    mapGet (foldBoth src a b).2 k = some v := by
  induction src generalizing a b with
  | nil => simp [mapGet] at h
  | cons kv rest ih =>
      obtain ⟨k0, v0⟩ := kv
      simp only [List.map_cons, List.nodup_cons] at hn
      simp only [mapGet] at h
      by_cases h0 : k0 = k
      · simp only [if_pos h0] at h
        obtain rfl := h0
        obtain rfl : v0 = v := Option.some_injective _ h
        have hrest : mapGet rest k0 = none := mapGet_eq_none_of_not_mem rest k0 hn.1
        have := foldBoth_get_of_not_mem rest (mapSet a k0 v0) (mapSet b k0 v0) k0 hrest
        simp only [foldBoth, List.foldl_cons] at this ⊢
        exact ⟨this.1.trans (mapGet_mapSet_self a k0 v0),
               this.2.trans (mapGet_mapSet_self b k0 v0)⟩
      · simp only [if_neg h0] at h
        have := ih (mapSet a k0 v0) (mapSet b k0 v0) hn.2 h
        simpa only [foldBoth, List.foldl_cons] using this

lemma jsAssign_get_of_none (t s : StyleRec) (k : String) (h : mapGet s k = none) :
    mapGet (jsAssign t s) k = mapGet t k := by
  induction s generalizing t with
  | nil => simp [jsAssign]
  | cons kv rest ih =>
      obtain ⟨k0, v0⟩ := kv
      simp only [mapGet] at h
      by_cases h0 : k0 = k
      · simp [h0] at h
      · simp only [if_neg h0] at h
        simp only [jsAssign, List.foldl_cons] at ih ⊢
        exact (ih (mapSet t k0 v0) h).trans (mapGet_mapSet_ne t k0 k v0 (Ne.symm h0))

lemma jsAssign_get_of_some (t s : StyleRec) (k : String) (v : JVal)
    (hn : (s.map Prod.fst).Nodup) (h : mapGet s k = some v) :
    mapGet (jsAssign t s) k = some v := by
  induction s generalizing t with
  | nil => simp [mapGet] at h
  | cons kv rest ih =>
      obtain ⟨k0, v0⟩ := kv
      simp only [List.map_cons, List.nodup_cons] at hn
      simp only [mapGet] at h
      by_cases h0 : k0 = k
      · simp only [if_pos h0] at h
        obtain rfl := h0
        obtain rfl : v0 = v := Option.some_injective _ h
        have hrest : mapGet rest k0 = none := mapGet_eq_none_of_not_mem rest k0 hn.1
        simp only [jsAssign, List.foldl_cons]
        exact (jsAssign_get_of_none (mapSet t k0 v0) rest k0 hrest).trans
          (mapGet_mapSet_self t k0 v0)
      · simp only [if_neg h0] at h
        simp only [jsAssign, List.foldl_cons]
        exact ih (mapSet t k0 v0) hn.2 h

/-! ### Lemmas about the `timeEnd` auto-selection -/

lemma foldlM_reduceStep_stays (l : List String) (s : String)
    (h : containsTimer s = true) :
    List.foldlM reduceStep (some s) l = Except.ok (some s) := by
  induction l with
  | nil => rfl
  | cons y rest ih =>
      simp only [List.foldlM_cons, reduceStep, h, if_pos]
      simpa [Bind.bind, Except.bind] using ih

lemma autoSelect_singleton (k : String) : autoSelect [k] = Except.ok (some k) := rfl

lemma autoSelect_last_timer (ks : List String) (k : String)
    (h : containsTimer k = true) : autoSelect (ks ++ [k]) = Except.ok (some k) := by
  simp only [autoSelect, List.reverse_append, List.reverse_cons, List.reverse_nil,
    List.nil_append, List.cons_append]
  exact foldlM_reduceStep_stays ks.reverse k h

lemma autoSelect_second_timer (ks : List String) (k2 k1 : String)
    (h1 : containsTimer k1 = false) (h2 : containsTimer k2 = true) :
    autoSelect (ks ++ [k2, k1]) = Except.ok (some k2) := by
  simp only [autoSelect, List.reverse_append, List.reverse_cons, List.reverse_nil,
    List.nil_append, List.cons_append, List.foldlM_cons, reduceStep, h1, h2,
    Bool.false_eq_true, if_neg, if_pos]
  simpa [Bind.bind, Except.bind] using foldlM_reduceStep_stays ks.reverse k2 h2

lemma autoSelect_two_none (k2 k1 : String)
    (h1 : containsTimer k1 = false) (h2 : containsTimer k2 = false) :
    autoSelect [k2, k1] = Except.ok none := by
  simp [autoSelect, List.foldlM_cons, reduceStep, h1, h2, Bind.bind, Except.bind,
    pure, Except.pure]

lemma autoSelect_three_throws (ks : List String) (k3 k2 k1 : String)
    (h1 : containsTimer k1 = false) (h2 : containsTimer k2 = false) :
    autoSelect (ks ++ [k3, k2, k1]) = Except.error () := by
  simp [autoSelect, List.reverse_append, List.foldlM_cons, reduceStep, h1, h2,
    Bind.bind, Except.bind]

/-! ### Lemmas about the timer operations -/

lemma getBadge_ok_of_recOk (r : StyleRec) (d : String) (h : recOk r = true) :
    ∃ b, getBadge r d = Except.ok b := by
  simp only [recOk, Bool.and_eq_true] at h
  rcases hb : mapGet r "badge" with _ | v
  · exact ⟨d, by simp [getBadge, hb]⟩
  · rcases v with s | xs | l | b
    · exact ⟨if s = "" then d else s, by simp [getBadge, hb]⟩
    · rw [hb] at h
      simp at h
    · rw [hb] at h
      simp at h
    · cases b
      · exact ⟨d, by simp [getBadge, hb]⟩
      · rw [hb] at h
        simp at h

lemma getStartText_ok_of_recOk (r : StyleRec) (h : recOk r = true) :
    ∃ t, getStartText r = Except.ok t := by
  simp only [recOk, Bool.and_eq_true] at h
  rcases ht : mapGet r "text" with _ | v
  · exact ⟨"Initialized timer...", by simp [getStartText, ht]⟩
  · rcases v with s | xs | l | b
    · exact ⟨if s = "" then "Initialized timer..." else s, by simp [getStartText, ht]⟩
    · exact ⟨joinSep " " xs, by simp [getStartText, ht]⟩
    · rw [ht] at h
      simp at h
    · exact ⟨if b then "true" else "Initialized timer...", by simp [getStartText, ht]⟩

lemma getEndText_ok_of_recOk (r : StyleRec) (ex : String) (h : recOk r = true) :
    ∃ t, getEndText r ex = Except.ok t := by
  simp only [recOk, Bool.and_eq_true] at h
  rcases ht : mapGet r "text" with _ | v
  · exact ⟨"Timer run for: " ++ ex, by simp [getEndText, ht]⟩
  · rcases v with s | xs | l | b
    · exact ⟨if s = "" then "Timer run for: " ++ ex else s, by simp [getEndText, ht]⟩
    · exact ⟨replaceFirstComma (joinSep "," xs) (" " ++ ex ++ " "),
        by simp [getEndText, ht]⟩
    · rw [ht] at h
      simp at h
    · exact ⟨if b then "true" else "Timer run for: " ++ ex, by simp [getEndText, ht]⟩

/-- Successful `time` with no options: the effective label is
`resolvedLabel`, the timer map gains exactly that entry, the style
records are untouched and one line is appended to the sink. -/
lemma timeOp_no_options (ctx : Ctx) (st : SState) (lb : Option String) (now : Int)
    (h : recOk st.tstart = true) :
    ∃ line, timeOp ctx st lb none now =
      Except.ok (resolvedLabel st lb,
        { timers := mapSet st.timers (resolvedLabel st lb) now,
          tstart := st.tstart, tend := st.tend,
          out := st.out ++ [line] }) := by
  obtain ⟨b, hb⟩ := getBadge_ok_of_recOk st.tstart ctx.startBadge h
  obtain ⟨t, ht⟩ := getStartText_ok_of_recOk st.tstart h
  refine ⟨joinSep " " (metaTokens ctx ++
      [(colorResolve ctx.sty st.tstart "color" ctx.sty.greenS).apply (padEnd b 4),
       padEnd ((colorResolve ctx.sty st.tstart "color" ctx.sty.greenS).applyU
         (resolvedLabel st lb)) (ctx.longestLabel + 22), t]) ++ "\n", ?_⟩
  simp [timeOp, hb, ht]

/-- Whatever the label and options, a successful `time` writes exactly
the entry for the returned label into the timer map. -/
lemma timeOp_ok_timers (ctx : Ctx) (st : SState) (lb : Option String)
    (opts : Option StyleRec) (now : Int) (r : String) (st' : SState)
    (h : timeOp ctx st lb opts now = Except.ok (r, st')) :
    r = resolvedLabel st lb ∧ st'.timers = mapSet st.timers r now := by
  simp only [timeOp] at h
  rcases hp : (match opts with
         | none => Except.ok (st.tstart, st.tend)
         | some o => applyTimerOptions o st.tstart st.tend) with e | p
  · rw [hp] at h
    simp at h
  · rw [hp] at h
    dsimp only at h
    rcases hb : getBadge p.1 ctx.startBadge with e | b
    · rw [hb] at h
      simp at h
    · rw [hb] at h
      dsimp only at h
      rcases ht : getStartText p.1 with e | t
      · rw [ht] at h
        simp at h
      · rw [ht] at h
        simp only [Except.ok.injEq, Prod.mk.injEq] at h
        obtain ⟨h1, h2⟩ := h
        subst h1
        rw [← h2]
        exact ⟨rfl, rfl⟩

/-- A `timeEnd` with a non-empty explicit label goes straight to
`endWith`. -/
lemma timeEndOp_some_ne (ctx : Ctx) (st : SState) (l : String) (now : Int)
    (h : l ≠ "") : timeEndOp ctx st (some l) now = endWith ctx st l now := by
  simp [timeEndOp, h]

/-- An `endWith` on an untracked label: a no-op returning `undefined`. -/
lemma endWith_untracked (ctx : Ctx) (st : SState) (l : String) (now : Int)
    (h : mapGet st.timers l = none) :
    endWith ctx st l now = Except.ok (none, st) := by
  simp [endWith, h]

/-- An `endWith` on a tracked label with a renderable end record: returns
`{label, span}` with `span = now - started`, removes the entry, and
appends one line to the sink. -/
lemma endWith_tracked (ctx : Ctx) (st : SState) (l : String) (now started : Int)
    (h : mapGet st.timers l = some started) (hr : recOk st.tend = true) :
    ∃ line, endWith ctx st l now =
      Except.ok (some ⟨l, now - started⟩,
        { st with timers := mapDelete st.timers l,
                  out := st.out ++ [line] }) := by
  obtain ⟨b, hb⟩ := getBadge_ok_of_recOk st.tend ctx.pauseBadge hr
  obtain ⟨t, ht⟩ := getEndText_ok_of_recOk st.tend
    ((colorResolve ctx.sty st.tend "time" ctx.sty.yellowS).apply
      (executionTime (now - started))) hr
  refine ⟨joinSep " " (metaTokens ctx ++
      [(colorResolve ctx.sty st.tend "color" ctx.sty.redS).apply (padEnd b 4),
       padEnd ((colorResolve ctx.sty st.tend "color" ctx.sty.redS).applyU l)
         (ctx.longestLabel + 22), t]) ++ "\n", ?_⟩
  simp [endWith, h, hb, ht]

/-- Inversion of a successful `endWith`: either the label was
untracked and the state is returned unchanged, or the resulting timer
map is the old one with the label's entry deleted. -/
lemma endWith_ok_inv (ctx : Ctx) (st : SState) (l : String) (now : Int)
    (res : Option TimerResult) (st' : SState)
    (h : endWith ctx st l now = Except.ok (res, st')) :
    (mapGet st.timers l = none ∧ st' = st) ∨
    st'.timers = mapDelete st.timers l := by
  unfold endWith at h
  rcases hg : mapGet st.timers l with _ | v
  · rw [hg] at h
    simp only [Except.ok.injEq, Prod.mk.injEq] at h
    exact Or.inl ⟨rfl, h.2.symm⟩
  · rw [hg] at h
    dsimp only at h
    rcases hb : getBadge st.tend ctx.pauseBadge with e | b
    · rw [hb] at h
      simp at h
    · rw [hb] at h
      dsimp only at h
      rcases htx : getEndText st.tend
        ((colorResolve ctx.sty st.tend "time" ctx.sty.yellowS).apply
          (executionTime (now - v))) with e | t
      · rw [htx] at h
        simp at h
      · rw [htx] at h
        simp only [Except.ok.injEq, Prod.mk.injEq] at h
        right
        rw [← h.2]

/-- A `timeEnd` with a falsy label and a non-empty timer map defers to
the `reduceRight` selection. -/
lemma timeEndOp_auto (ctx : Ctx) (st : SState) (now : Int)
    (h : st.timers.length ≠ 0) :
    timeEndOp ctx st none now =
      (match autoSelect (st.timers.map Prod.fst) with
        | Except.error e => Except.error e
        | Except.ok none => Except.ok (none, st)
        | Except.ok (some l) => endWith ctx st l now) := by
  simp [timeEndOp, h]

/-! ### Lemmas for message containment -/

/-- A styling function that only wraps its argument in fixed
decorations (as ANSI escape styling does). -/
def Wrapping (f : String → String) : Prop :=
  ∃ p q, ∀ s, f s = p ++ s ++ q

lemma joinSep_mem_split (sep : String) (l : List String) (t : String) (h : t ∈ l) :
    ∃ a b, joinSep sep l = a ++ t ++ b := by
  induction l with
  | nil => cases h
  | cons x xs ih =>
      rcases List.mem_cons.mp h with h1 | h2
      · subst h1
        cases xs with
        | nil => exact ⟨"", "", by simp [joinSep]⟩
        | cons y ys =>
            exact ⟨"", sep ++ joinSep sep (y :: ys), by
              simp [joinSep, String.append_assoc, String.empty_append]⟩
      · have hne : xs ≠ [] := fun hx => by simp [hx] at h2
        obtain ⟨a, b, hab⟩ := ih h2
        cases xs with
        | nil => cases h2
        | cons y ys =>
            refine ⟨x ++ sep ++ a, b, ?_⟩
            simp only [joinSep]
            rw [hab]
            simp [String.append_assoc]

/-- Inversion of `buildSignale` on a single plain-string argument: the
produced line is the space-join of the prefix tokens and the (possibly
underlined) message token. -/
lemma buildSignale_single_text (ctx : Ctx) (d : TypeDesc) (m : String) (line : String)
    (h : buildSignale ctx d [LogArg.text m] = Except.ok line) :
    ∃ sig, line = joinSep " " (sig ++
      [if cfgFlag ctx.cfg "underlineMessage" then ctx.sty.underline m else m]) := by
  simp only [buildSignale, classify] at h
  rcases hp : buildPre ctx d none with e | sig
  · rw [hp] at h
    simp at h
  · rw [hp] at h
    dsimp only at h
    refine ⟨sig, ?_⟩
    simp only [Except.ok.injEq] at h
    rw [← h]
    simp [joinSep, coerceArg]

/-! ### Claim theorems -/

/-- C3: `timeEnd` formats a non-negative elapsed time `n` as `"<n>ms"`
when `n < 1000`, and otherwise as `n / 1000` rendered with exactly two
decimal places followed by `"s"` (the two rendered decimals realise the
rounded value `(n + 5) / 10` in centiseconds); in particular `999`
formats as `"999ms"`, `1000` as `"1.00s"` and `2500` as `"2.50s"`. -/
theorem executionTime_format :
    (∀ n : Int, 0 ≤ n → n < 1000 → executionTime n = toString n ++ "ms") ∧
    (∀ n : Int, 1000 ≤ n →
      ∃ ip d, d < 100 ∧ (twoDigits d).length = 2 ∧
        executionTime n = toString ip ++ "." ++ twoDigits d ++ "s" ∧
        ip * 100 + d = (n + 5).toNat / 10) ∧
    executionTime 999 = "999ms" ∧ executionTime 1000 = "1.00s" ∧
    executionTime 2500 = "2.50s" := by
  refine ⟨?_, ?_, by decide, by decide, by decide⟩
  · intro n _ h1
    simp [executionTime, if_pos h1]
  · intro n h
    have hn : ¬ n < 1000 := not_lt.mpr h
    refine ⟨(n + 5).toNat / 10 / 100, (n + 5).toNat / 10 % 100,
      Nat.mod_lt _ (by norm_num), ?_, ?_, ?_⟩
    · simp [twoDigits, String.length]
    · simp [executionTime, hn]
    · have := Nat.div_add_mod ((n + 5).toNat / 10) 100
      omega

/-- C3 witness: the theorem applied at 500 and 2500. -/
theorem executionTime_format_witness :
    executionTime 500 = "500ms" ∧
    ∃ ip d, d < 100 ∧ (twoDigits d).length = 2 ∧
      executionTime 2500 = toString ip ++ "." ++ twoDigits d ++ "s" ∧
      ip * 100 + d = ((2500 : Int) + 5).toNat / 10 :=
  ⟨executionTime_format.1 500 (by decide) (by decide),
   executionTime_format.2.1 2500 (by decide)⟩

/-- C5: composing through the facade with a type name that is not in
the registry fails (`unknownType`: the constructor never bound a
logging method for it) and nothing is written to the sink — the
returned failure carries no extended output list. -/
theorem unknown_type_fails (ctx : Ctx) (out : List String) (name : String)
    (args : List LogArg) (h : mapGet ctx.types name = none) :
    callLogger ctx out name args = Except.error SigErr.unknownType := by
  simp [callLogger, h]

/-- C5 witness: the theorem applied to the concrete registry, which
does not contain `"nope"`. -/
theorem unknown_type_fails_witness :
    callLogger exCtx [] "nope" [LogArg.text "hi"] = Except.error SigErr.unknownType :=
  unknown_type_fails exCtx [] "nope" [LogArg.text "hi"] rfl

/-- C6: `.config(newObj)` merges `newObj` over the package-level
defaults, not over the prior instance configuration: the result is
independent of the prior configuration, keys absent from `newObj` come
from the package defaults alone, keys present in `newObj` win, and in
particular a previously-set `displayDate` is not retained unless it is
in the package defaults or in `newObj`. -/
theorem config_replace_from_defaults (pcfg c1 c2 newObj : StyleRec) :
    configOp pcfg c1 newObj = configOp pcfg c2 newObj ∧
    (∀ k, mapGet newObj k = none →
      mapGet (configOp pcfg c1 newObj) k = mapGet pcfg k) ∧
    ((newObj.map Prod.fst).Nodup →
      ∀ k v, mapGet newObj k = some v → mapGet (configOp pcfg c1 newObj) k = some v) ∧
    (mapGet newObj "displayDate" = none →
      mapGet (configOp pcfg c1 newObj) "displayDate" = mapGet pcfg "displayDate") :=
  ⟨rfl,
   fun k hk => jsAssign_get_of_none pcfg newObj k hk,
   fun hn k v hv => jsAssign_get_of_some pcfg newObj k v hn hv,
   fun h => jsAssign_get_of_none pcfg newObj "displayDate" h⟩

/-- A package configuration whose defaults enable `displayDate`. -/
def exPcfg : StyleRec := [("displayDate", JVal.vbool true)]

/-- A prior instance configuration that had disabled `displayDate`. -/
def exPrior : StyleRec := [("displayDate", JVal.vbool false)]

/-- A replacement object that does not mention `displayDate`. -/
def exNew : StyleRec := [("displayBadge", JVal.vbool false)]

/-- C6 witness: replacing the configuration of an instance that had
`displayDate: false` with `{displayBadge: false}` restores the
package-default `displayDate`. -/
theorem config_replace_from_defaults_witness :
    configOp exPcfg exPrior exNew = configOp exPcfg [] exNew ∧
    mapGet (configOp exPcfg exPrior exNew) "displayDate" =
      mapGet exPcfg "displayDate" ∧
    mapGet (configOp exPcfg exPrior exNew) "displayBadge" =
      some (JVal.vbool false) :=
  ⟨(config_replace_from_defaults exPcfg exPrior [] exNew).1,
   (config_replace_from_defaults exPcfg exPrior [] exNew).2.2.2 rfl,
   (config_replace_from_defaults exPcfg exPrior [] exNew).2.2.1 (by simp [exNew])
     "displayBadge" (JVal.vbool false) rfl⟩

/-- C8 counterexample: the empty string is never a tracked label, yet
`timeEnd("")` with a non-empty timer map is not a no-op — the falsy
label triggers auto-selection, which here ends `timer_0`. -/
theorem timeEnd_empty_label_cex :
    mapGet stT0.timers "" = none ∧
    ∃ st', timeEndOp exCtx stT0 (some "") 6 = Except.ok (some ⟨"timer_0", 1⟩, st') ∧
      st'.timers = [] :=
  ⟨rfl, _, rfl, rfl⟩

/-- C8 (amended): for every NON-EMPTY label that is not currently
tracked, `timeEnd(label)` is a no-op: it returns `undefined`, emits no
output, and leaves the whole state (timer map included) unchanged. -/
theorem timeEnd_untracked_noop (ctx : Ctx) (st : SState) (l : String) (now : Int)
    (h1 : l ≠ "") (h2 : mapGet st.timers l = none) :
    timeEndOp ctx st (some l) now = Except.ok (none, st) := by
  rw [timeEndOp_some_ne ctx st l now h1]
  exact endWith_untracked ctx st l now h2

/-- C8 witness: the amended theorem applied to a label never passed to
`time`. -/
theorem timeEnd_untracked_noop_witness :
    timeEndOp exCtx stFoo (some "bar") 9 = Except.ok (none, stFoo) :=
  timeEnd_untracked_noop exCtx stFoo "bar" 9 (by decide) rfl

/-- C1 counterexample: with the empty label, `time("")` tracks the
auto-generated label `timer_0` (not `""`) and `timeEnd("")`
auto-selects, so the returned record's label is `"timer_0"`, not the
label string that was passed. -/
theorem timer_roundtrip_empty_label_cex :
    ∃ st1 st2, timeOp exCtx initState (some "") none 0 = Except.ok ("timer_0", st1) ∧
      timeEndOp exCtx st1 (some "") 5 = Except.ok (some ⟨"timer_0", 5⟩, st2) ∧
      ("timer_0" : String) ≠ "" :=
  ⟨_, _, rfl, rfl, by decide⟩

/-- C1 (amended): for every NON-EMPTY label string `x` (and any state
whose timer keys are distinct and whose style records render), `time(x)`
followed by `timeEnd(x)` returns `{label := x, span := t2 - t1}` with a
non-negative span when the clock did not go backwards, the timer record
for `x` is removed, and an immediately following second `timeEnd(x)` is
a no-op returning `undefined`. -/
theorem timer_roundtrip (ctx : Ctx) (st : SState) (x : String) (t1 t2 t3 : Int)
    (hx : x ≠ "") (ht : t1 ≤ t2) (hnd : (st.timers.map Prod.fst).Nodup)
    (hs : recOk st.tstart = true) (he : recOk st.tend = true) :
    ∃ st1 st2, timeOp ctx st (some x) none t1 = Except.ok (x, st1) ∧
      timeEndOp ctx st1 (some x) t2 = Except.ok (some ⟨x, t2 - t1⟩, st2) ∧
      0 ≤ t2 - t1 ∧
      mapGet st2.timers x = none ∧
      timeEndOp ctx st2 (some x) t3 = Except.ok (none, st2) := by
  have ex : resolvedLabel st (some x) = x := by simp [resolvedLabel, hx]
  obtain ⟨line1, h1⟩ := timeOp_no_options ctx st (some x) t1 hs
  rw [ex] at h1
  have hget : mapGet (mapSet st.timers x t1) x = some t1 := mapGet_mapSet_self st.timers x t1
  obtain ⟨line2, h2⟩ := endWith_tracked ctx
    { timers := mapSet st.timers x t1, tstart := st.tstart, tend := st.tend,
      out := st.out ++ [line1] } x t2 t1 hget he
  rw [← timeEndOp_some_ne ctx _ x t2 hx] at h2
  have hnone : mapGet (mapDelete (mapSet st.timers x t1) x) x = none :=
    mapGet_mapDelete_self (mapSet st.timers x t1) x (nodup_keys_mapSet st.timers x t1 hnd)
  refine ⟨_, _, h1, h2, Int.sub_nonneg.mpr ht, hnone, ?_⟩
  rw [timeEndOp_some_ne ctx _ x t3 hx]
  exact endWith_untracked ctx _ x t3 hnone

/-- C1 witness: the amended theorem applied to the fresh state with
label `"a"` and clock values `0 ≤ 5`. -/
theorem timer_roundtrip_witness :
    ∃ st1 st2, timeOp exCtx initState (some "a") none 0 = Except.ok ("a", st1) ∧
      timeEndOp exCtx st1 (some "a") 5 = Except.ok (some ⟨"a", 5 - 0⟩, st2) ∧
      (0 : Int) ≤ 5 - 0 ∧
      mapGet st2.timers "a" = none ∧
      timeEndOp exCtx st2 (some "a") 9 = Except.ok (none, st2) :=
  timer_roundtrip exCtx initState "a" 0 5 9 (by decide) (by decide) (by simp [initState])
    rfl rfl

/-- C7: `time()` with no label synthesizes `timer_<n>` with `n` the
current tracked-timer count: from a fresh instance two successive
no-label calls yield the distinct labels `timer_0` and `timer_1`; the
auto-label is never the empty string; but it is not guaranteed unique
once timers have been deleted and re-added — in `stT1` (reachable by
`time(); time(); timeEnd('timer_0')`) the next auto-label collides with
the still-tracked `timer_1`. -/
theorem auto_label_generation :
    (∀ (ctx : Ctx) (t1 t2 : Int),
      ∃ st1 st2, timeOp ctx initState none none t1 = Except.ok ("timer_0", st1) ∧
        st1.timers = [("timer_0", t1)] ∧
        timeOp ctx st1 none none t2 = Except.ok ("timer_1", st2) ∧
        st2.timers = [("timer_0", t1), ("timer_1", t2)] ∧
        ("timer_0" : String) ≠ "timer_1") ∧
    (∀ st : SState, autoLabel st ≠ "") ∧
    (autoLabel stT1 = "timer_1" ∧ mapGet stT1.timers "timer_1" = some 5) := by
  refine ⟨?_, ?_, rfl, rfl⟩
  · intro ctx t1 t2
    obtain ⟨line1, h1⟩ := timeOp_no_options ctx initState none t1 rfl
    have e0 : resolvedLabel initState none = "timer_0" := rfl
    rw [e0] at h1
    obtain ⟨line2, h2⟩ := timeOp_no_options ctx
      { timers := mapSet initState.timers "timer_0" t1, tstart := initState.tstart,
        tend := initState.tend, out := initState.out ++ [line1] } none t2 rfl
    have e1 : resolvedLabel
      { timers := mapSet initState.timers "timer_0" t1, tstart := initState.tstart,
        tend := initState.tend, out := initState.out ++ [line1] } none = "timer_1" := by
      show autoLabel _ = _
      unfold autoLabel
      have hl : (mapSet initState.timers "timer_0" t1).length = 1 := rfl
      rw [hl]
      decide
    rw [e1] at h2
    exact ⟨_, _, h1, rfl, h2, rfl, by decide⟩
  · intro st hc
    have := congrArg String.length hc
    simp only [autoLabel, String.length_append] at this
    have h6 : "timer_".length = 6 := rfl
    rw [h6, String.length_empty] at this
    omega

/-- C10 counterexample: `time("")` on a state tracking `timer_1` (after
a delete/re-add history) resolves to the colliding auto-label and
overwrites the entry of `timer_1 ≠ ""`, so a timer operation is not
confined to the label it was given. -/
theorem timer_frame_empty_label_cex :
    ("" : String) ≠ "timer_1" ∧ mapGet stT1.timers "timer_1" = some 5 ∧
    ∃ st', timeOp exCtx stT1 (some "") none 9 = Except.ok ("timer_1", st') ∧
      mapGet st'.timers "timer_1" = some 9 :=
  ⟨by decide, rfl, _, rfl, rfl⟩

/-- C10 (amended): for every NON-EMPTY given label `l`, the timer
operations only touch the entry for `l`: a successful `time(l)` (any
options) and `timeEnd(l)` leave the presence and recorded start of
every other label unchanged. -/
theorem timer_frame :
    (∀ (ctx : Ctx) (st : SState) (l : String) (opts : Option StyleRec) (now : Int)
       (r : String) (st' : SState), l ≠ "" →
       timeOp ctx st (some l) opts now = Except.ok (r, st') →
       ∀ l', l' ≠ l → mapGet st'.timers l' = mapGet st.timers l') ∧
    (∀ (ctx : Ctx) (st : SState) (l : String) (now : Int)
       (res : Option TimerResult) (st' : SState), l ≠ "" →
       timeEndOp ctx st (some l) now = Except.ok (res, st') →
       ∀ l', l' ≠ l → mapGet st'.timers l' = mapGet st.timers l') := by
  constructor
  · intro ctx st l opts now r st' hl h l' hne
    obtain ⟨hr, hm⟩ := timeOp_ok_timers ctx st (some l) opts now r st' h
    have : r = l := by simpa [resolvedLabel, hl] using hr
    subst this
    rw [hm]
    exact mapGet_mapSet_ne st.timers r l' now hne
  · intro ctx st l now res st' hl h l' hne
    rw [timeEndOp_some_ne ctx st l now hl] at h
    rcases endWith_ok_inv ctx st l now res st' h with ⟨_, rfl⟩ | hdel
    · rfl
    · rw [hdel]
      exact mapGet_mapDelete_ne st.timers l l' hne

/-- C10 witness: the amended theorem applied to `time("x")` and
`timeEnd("timer_0")` on the state tracking `timer_0`. -/
theorem timer_frame_witness :
    (∃ st', timeOp exCtx stT0 (some "x") none 7 = Except.ok ("x", st') ∧
      mapGet st'.timers "timer_0" = mapGet stT0.timers "timer_0") ∧
    (∃ st', timeEndOp exCtx stT0 (some "timer_0") 7 =
        Except.ok (some ⟨"timer_0", 2⟩, st') ∧
      mapGet st'.timers "zzz" = mapGet stT0.timers "zzz") := by
  constructor
  · refine ⟨_, rfl, ?_⟩
    exact timer_frame.1 exCtx stT0 "x" none 7 "x" _ (by decide) rfl "timer_0" (by decide)
  · refine ⟨_, rfl, ?_⟩
    exact timer_frame.2 exCtx stT0 "timer_0" 7 (some ⟨"timer_0", 2⟩) _ (by decide) rfl
      "zzz" (by decide)

/-- C9: for every registered type name and plain string message `m`,
a successful composition of that type with the single argument `m`
appends one line containing `m` as a contiguous substring (the styling
functions only wrap their arguments, as ANSI styling does). -/
theorem compose_contains_message (ctx : Ctx) (out : List String) (name m : String)
    (out' : List String) (hw : Wrapping ctx.sty.underline)
    (h : callLogger ctx out name [LogArg.text m] = Except.ok out') :
    ∃ a b, out' = out ++ [a ++ m ++ b] := by
  unfold callLogger at h
  rcases hd : mapGet ctx.types name with _ | d
  · rw [hd] at h
    simp at h
  · rw [hd] at h
    dsimp only at h
    rcases hb : buildSignale ctx d [LogArg.text m] with e | line
    · rw [hb] at h
      simp at h
    · rw [hb] at h
      simp only [Except.ok.injEq] at h
      obtain ⟨sig, hline⟩ := buildSignale_single_text ctx d m line hb
      have hmem : (if cfgFlag ctx.cfg "underlineMessage" then ctx.sty.underline m else m) ∈
          sig ++ [if cfgFlag ctx.cfg "underlineMessage" then ctx.sty.underline m else m] := by
        simp
      obtain ⟨a, b, hab⟩ := joinSep_mem_split " "
        (sig ++ [if cfgFlag ctx.cfg "underlineMessage" then ctx.sty.underline m else m])
        (if cfgFlag ctx.cfg "underlineMessage" then ctx.sty.underline m else m) hmem
      have hwrap : ∃ p q,
          (if cfgFlag ctx.cfg "underlineMessage" then ctx.sty.underline m else m) =
            p ++ m ++ q := by
        by_cases hc : cfgFlag ctx.cfg "underlineMessage"
        · obtain ⟨p, q, hpq⟩ := hw
          exact ⟨p, q, by rw [if_pos hc, hpq]⟩
        · exact ⟨"", "", by rw [if_neg hc, String.empty_append, String.append_empty]⟩
      obtain ⟨p, q, hpq⟩ := hwrap
      refine ⟨a ++ p, q ++ (b ++ "\n"), ?_⟩
      rw [← h, hline, hab, hpq]
      simp [String.append_assoc]

/-- C9 witness: the theorem applied to the concrete registry type
`"info"` and message `"hello"` under the pass-through styler. -/
theorem compose_contains_message_witness :
    ∃ a b, (["hello\n"] : List String) = [] ++ [a ++ "hello" ++ b] :=
  compose_contains_message exCtx [] "info" "hello" ["hello\n"]
    ⟨"", "", fun s => by
      rw [String.empty_append, String.append_empty]
      rfl⟩ rfl

/-- C4: the option layering of `time(label, options)`: with
`options.both` present (a plain object), each of its key/values is
applied to both style-override records; otherwise `options.start` /
`options.end` wholesale-replace the respective record first (absent
options leave the record alone, object values become the record), and
then every key of `options` is applied per-key to both records, these
per-key writes overriding the wholesale replacement for those keys
(keys not in `options` see the wholesale-replaced record).  A
successful `time` call installs exactly the layered records. -/
theorem time_options_layering :
    (∀ cur : StyleRec, wholesale cur none = Except.ok cur) ∧
    (∀ (cur : StyleRec) (l : List (String × JVal)),
      wholesale cur (some (JVal.vobj l)) = Except.ok l) ∧
    (∀ (opts ts te : StyleRec) (b : List (String × JVal)),
      mapGet opts "both" = some (JVal.vobj b) → (b.map Prod.fst).Nodup →
      ∃ p, applyTimerOptions opts ts te = Except.ok p ∧
        ∀ k v, mapGet b k = some v → mapGet p.1 k = some v ∧ mapGet p.2 k = some v) ∧
    (∀ (opts ts te ts1 te1 : StyleRec), mapGet opts "both" = none →
      wholesale ts (mapGet opts "start") = Except.ok ts1 →
      wholesale te (mapGet opts "end") = Except.ok te1 →
      applyTimerOptions opts ts te = Except.ok (foldBoth opts ts1 te1) ∧
      ((opts.map Prod.fst).Nodup →
        ∀ k v, mapGet opts k = some v →
          mapGet (foldBoth opts ts1 te1).1 k = some v ∧
          mapGet (foldBoth opts ts1 te1).2 k = some v) ∧
      (∀ k, mapGet opts k = none →
        mapGet (foldBoth opts ts1 te1).1 k = mapGet ts1 k ∧
        mapGet (foldBoth opts ts1 te1).2 k = mapGet te1 k)) ∧
    (∀ (ctx : Ctx) (st : SState) (lb : Option String) (opts : StyleRec) (now : Int)
       (r : String) (st' : SState),
      timeOp ctx st lb (some opts) now = Except.ok (r, st') →
      applyTimerOptions opts st.tstart st.tend = Except.ok (st'.tstart, st'.tend)) := by
  refine ⟨fun _ => rfl, fun _ _ => rfl, ?_, ?_, ?_⟩
  · intro opts ts te b hb hn
    refine ⟨foldBoth b ts te, ?_, ?_⟩
    · simp [applyTimerOptions, hb, truthy, entriesOf]
    · intro k v hkv
      exact foldBoth_get_of_mem b ts te k v hn hkv
  · intro opts ts te ts1 te1 hb hws hwe
    refine ⟨?_, ?_, ?_⟩
    · simp [applyTimerOptions, hb, hws, hwe]
    · intro hn k v hkv
      exact foldBoth_get_of_mem opts ts1 te1 k v hn hkv
    · intro k hk
      exact foldBoth_get_of_not_mem opts ts1 te1 k hk
  · intro ctx st lb opts now r st' h
    simp only [timeOp] at h
    rcases hp : applyTimerOptions opts st.tstart st.tend with e | p
    · rw [hp] at h
      simp at h
    · rw [hp] at h
      dsimp only at h
      rcases hbg : getBadge p.1 ctx.startBadge with e | b
      · rw [hbg] at h
        simp at h
      · rw [hbg] at h
        dsimp only at h
        rcases ht : getStartText p.1 with e | t
        · rw [ht] at h
          simp at h
        · rw [ht] at h
          simp only [Except.ok.injEq, Prod.mk.injEq] at h
          rw [← h.2]

/-- Concrete `options` object exercising the `both` branch. -/
def exOptsBoth : StyleRec := [("both", JVal.vobj [("color", JVal.vstr "cyan")])]

/-- Concrete `options` object exercising the wholesale-then-overlay
branch: a `start` replacement plus a per-key write. -/
def exOptsMix : StyleRec :=
  [("start", JVal.vobj [("badge", JVal.vstr "B"), ("color", JVal.vstr "red")]),
   ("color", JVal.vstr "blue")]

/-- C4 witness: the theorem applied to the concrete option objects —
the `both` key reaches both records; the per-key `color` write
overrides the wholesale `start` replacement while its untouched
`badge` key survives. -/
theorem time_options_layering_witness :
    (∃ p, applyTimerOptions exOptsBoth [] [] = Except.ok p ∧
      mapGet p.1 "color" = some (JVal.vstr "cyan") ∧
      mapGet p.2 "color" = some (JVal.vstr "cyan")) ∧
    (applyTimerOptions exOptsMix [] [] =
      Except.ok (foldBoth exOptsMix
        [("badge", JVal.vstr "B"), ("color", JVal.vstr "red")] []) ∧
     mapGet (foldBoth exOptsMix
        [("badge", JVal.vstr "B"), ("color", JVal.vstr "red")] []).1 "color" =
       some (JVal.vstr "blue") ∧
     mapGet (foldBoth exOptsMix
        [("badge", JVal.vstr "B"), ("color", JVal.vstr "red")] []).1 "badge" =
       mapGet [("badge", JVal.vstr "B"), ("color", JVal.vstr "red")] "badge") := by
  constructor
  · obtain ⟨p, hp, hk⟩ := time_options_layering.2.2.1 exOptsBoth [] []
      [("color", JVal.vstr "cyan")] rfl (by simp)
    exact ⟨p, hp, hk "color" (JVal.vstr "cyan") rfl⟩
  · obtain ⟨heq, hsome, hnone⟩ := time_options_layering.2.2.2.1 exOptsMix [] []
      [("badge", JVal.vstr "B"), ("color", JVal.vstr "red")] [] rfl rfl rfl
    refine ⟨heq, ?_, ?_⟩
    · exact (hsome (by simp [exOptsMix]) "color" (JVal.vstr "blue") rfl).1
    · exact (hnone "badge" rfl).1

/-- C2 counterexample: with a single tracked label not containing
`timer_`, `timeEnd()` is NOT a no-op — the `reduceRight` returns the
lone key without ever testing it, so the custom timer `"foo"` is
selected and ended. -/
theorem timeEnd_auto_single_custom_cex :
    containsTimer "foo" = false ∧
    ∃ st', timeEndOp exCtx stFoo none 3 = Except.ok (some ⟨"foo", 3⟩, st') ∧
      st'.timers = [] :=
  ⟨rfl, _, rfl, rfl⟩

/-- C2 (amended): `timeEnd()` with no argument examines only the last
one or two tracked keys: (b) the most recently inserted key wins if it
contains `timer_`; (c) otherwise the second-most-recent key wins if it
contains `timer_`; (a) a single tracked key is selected
unconditionally, whatever its name; (d) with exactly two tracked keys
neither containing `timer_`, no label is selected (no-op); (e) with
three or more tracked keys whose last two do not contain `timer_`, the
reduction throws a `TypeError` (`is(null)`). -/
theorem timeEnd_auto_selection (ctx : Ctx) (st : SState) (now : Int) :
    (∀ m k v, st.timers = m ++ [(k, v)] → (st.timers.map Prod.fst).Nodup →
       containsTimer k = true → recOk st.tend = true →
       ∃ st', timeEndOp ctx st none now = Except.ok (some ⟨k, now - v⟩, st') ∧
         st'.timers = m) ∧
    (∀ m k2 v2 k1 v1, st.timers = m ++ [(k2, v2), (k1, v1)] →
       (st.timers.map Prod.fst).Nodup →
       containsTimer k1 = false → containsTimer k2 = true → recOk st.tend = true →
       ∃ st', timeEndOp ctx st none now = Except.ok (some ⟨k2, now - v2⟩, st') ∧
         st'.timers = m ++ [(k1, v1)]) ∧
    (∀ k v, st.timers = [(k, v)] → recOk st.tend = true →
       ∃ st', timeEndOp ctx st none now = Except.ok (some ⟨k, now - v⟩, st') ∧
         st'.timers = []) ∧
    (∀ k2 v2 k1 v1, st.timers = [(k2, v2), (k1, v1)] →
       containsTimer k1 = false → containsTimer k2 = false →
       timeEndOp ctx st none now = Except.ok (none, st)) ∧
    (∀ m k3 v3 k2 v2 k1 v1, st.timers = m ++ [(k3, v3), (k2, v2), (k1, v1)] →
       containsTimer k1 = false → containsTimer k2 = false →
       timeEndOp ctx st none now = Except.error ()) := by
  refine ⟨?_, ?_, ?_, ?_, ?_⟩
  · -- (b) last key contains timer_
    intro m k v hst hnd hk hr
    have hlen : st.timers.length ≠ 0 := by
      rw [hst]
      simp
    have hkeys : st.timers.map Prod.fst = m.map Prod.fst ++ [k] := by
      rw [hst]
      simp
    have hsel : autoSelect (st.timers.map Prod.fst) = Except.ok (some k) := by
      rw [hkeys]
      exact autoSelect_last_timer (m.map Prod.fst) k hk
    have hnotm : k ∉ m.map Prod.fst := by
      rw [hkeys] at hnd
      rcases List.nodup_append.mp hnd with ⟨-, -, hdisj⟩
      intro hkm
      exact hdisj hkm (by simp)
    have hget : mapGet st.timers k = some v := by
      rw [hst, mapGet_append_of_not_mem m [(k, v)] k hnotm]
      simp [mapGet]
    obtain ⟨line, hE⟩ := endWith_tracked ctx st k now v hget hr
    have hEnd : timeEndOp ctx st none now =
        Except.ok (some ⟨k, now - v⟩,
          { st with timers := mapDelete st.timers k, out := st.out ++ [line] }) := by
      rw [timeEndOp_auto ctx st now hlen, hsel]
      exact hE
    have hTimers : mapDelete st.timers k = m := by
      rw [hst, mapDelete_append_of_not_mem m [(k, v)] k hnotm]
      simp [mapDelete]
    exact ⟨_, hEnd, hTimers⟩
  · -- (c) second-to-last key contains timer_
    intro m k2 v2 k1 v1 hst hnd h1 h2 hr
    have hlen : st.timers.length ≠ 0 := by
      rw [hst]
      simp
    have hkeys : st.timers.map Prod.fst = m.map Prod.fst ++ [k2, k1] := by
      rw [hst]
      simp
    have hsel : autoSelect (st.timers.map Prod.fst) = Except.ok (some k2) := by
      rw [hkeys]
      exact autoSelect_second_timer (m.map Prod.fst) k2 k1 h1 h2
    have hnd' := hnd
    rw [hkeys] at hnd'
    rcases List.nodup_append.mp hnd' with ⟨-, hnd2, hdisj⟩
    have hnotm : k2 ∉ m.map Prod.fst := fun hkm => hdisj hkm (by simp)
    have hne21 : k2 ≠ k1 := by
      simp only [List.nodup_cons, List.mem_singleton] at hnd2
      exact fun he => hnd2.1 he
    have hget : mapGet st.timers k2 = some v2 := by
      rw [hst, mapGet_append_of_not_mem m [(k2, v2), (k1, v1)] k2 hnotm]
      simp [mapGet]
    obtain ⟨line, hE⟩ := endWith_tracked ctx st k2 now v2 hget hr
    have hEnd : timeEndOp ctx st none now =
        Except.ok (some ⟨k2, now - v2⟩,
          { st with timers := mapDelete st.timers k2, out := st.out ++ [line] }) := by
      rw [timeEndOp_auto ctx st now hlen, hsel]
      exact hE
    have hTimers : mapDelete st.timers k2 = m ++ [(k1, v1)] := by
      rw [hst, mapDelete_append_of_not_mem m [(k2, v2), (k1, v1)] k2 hnotm]
      simp [mapDelete, if_neg hne21]
    exact ⟨_, hEnd, hTimers⟩
  · -- (a) single tracked key
    intro k v hst hr
    have hlen : st.timers.length ≠ 0 := by
      rw [hst]
      simp
    have hsel : autoSelect (st.timers.map Prod.fst) = Except.ok (some k) := by
      rw [hst]
      exact autoSelect_singleton k
    have hget : mapGet st.timers k = some v := by
      rw [hst]
      simp [mapGet]
    obtain ⟨line, hE⟩ := endWith_tracked ctx st k now v hget hr
    have hEnd : timeEndOp ctx st none now =
        Except.ok (some ⟨k, now - v⟩,
          { st with timers := mapDelete st.timers k, out := st.out ++ [line] }) := by
      rw [timeEndOp_auto ctx st now hlen, hsel]
      exact hE
    have hTimers : mapDelete st.timers k = [] := by
      rw [hst]
      simp [mapDelete]
    exact ⟨_, hEnd, hTimers⟩
  · -- (d) exactly two, neither qualifies
    intro k2 v2 k1 v1 hst h1 h2
    have hlen : st.timers.length ≠ 0 := by
      rw [hst]
      simp
    have hsel : autoSelect (st.timers.map Prod.fst) = Except.ok none := by
      rw [hst]
      exact autoSelect_two_none k2 k1 h1 h2
    rw [timeEndOp_auto ctx st now hlen, hsel]
  · -- (e) three or more, last two fail the test
    intro m k3 v3 k2 v2 k1 v1 hst h1 h2
    have hlen : st.timers.length ≠ 0 := by
      rw [hst]
      simp
    have hkeys : st.timers.map Prod.fst = m.map Prod.fst ++ [k3, k2, k1] := by
      rw [hst]
      simp
    have hsel : autoSelect (st.timers.map Prod.fst) = Except.error () := by
      rw [hkeys]
      exact autoSelect_three_throws (m.map Prod.fst) k3 k2 k1 h1 h2
    rw [timeEndOp_auto ctx st now hlen, hsel]

/-- C2 witness: the amended theorem applied to the three concrete
states — one custom timer (selected), two custom timers (no-op), three
custom timers (throws). -/
theorem timeEnd_auto_selection_witness :
    (∃ st', timeEndOp exCtx stFoo none 3 = Except.ok (some ⟨"foo", 3 - 0⟩, st') ∧
      st'.timers = []) ∧
    timeEndOp exCtx stAB none 7 = Except.ok (none, stAB) ∧
    timeEndOp exCtx stABC none 7 = Except.error () :=
  ⟨(timeEnd_auto_selection exCtx stFoo 3).2.2.1 "foo" 0 rfl rfl,
   (timeEnd_auto_selection exCtx stAB 7).2.2.2.1 "a" 1 "b" 2 rfl (by decide) (by decide),
   (timeEnd_auto_selection exCtx stABC 7).2.2.2.2 [] "a" 1 "b" 2 "c" 3 rfl
     (by decide) (by decide)⟩

end Signale
